import Mathlib

/-!
Verification of the wproxy forward HTTP/HTTPS proxy (`main.go`).

The Go source is shallowly embedded: Go strings are Lean `String`s (with
byte-level comparisons done on their UTF-8 bytes as `List Nat`),
`http.Header` is an association list from canonical header name to the
ordered list of values, and the request handlers are pure functions from
the request together with the environment's behaviour (origin transport,
dial result, hijack support) to the observable outcome or the ordered
trace of actions they perform.
-/

namespace WProxy

/-- Static configuration of the proxy, mirroring the `config` struct in
`main.go`: listen address, listen port, credential string (`Auth`, empty
means authentication disabled), transparent-proxy flag, debug flag. -/
structure config where
  Addr : String
  Port : String
  Auth : String
  TProxy : Bool
  Debug : Bool
deriving Repr, DecidableEq

/-- HTTP headers as in Go `http.Header`: a map from canonical header name
to the ordered list of values, realised as an association list with
exact-key lookup. -/
abbrev Headers := List (String × List String)

/-- Go map access `h[key]` on a header map. -/
def headerLookup : Headers → String → Option (List String)
  | [], _ => none
  | (k, vs) :: rest, key => if k = key then some vs else headerLookup rest key

/-- Go `http.Header.Get`: the first value for the key, or `""` when the key
is absent or has no values. -/
def headerGet (h : Headers) (key : String) : String :=
  match headerLookup h key with
  | some (v :: _) => v
  | _ => ""

/-- Go `http.Header.Set`: replace the key's values by the single value. -/
def headerSet : Headers → String → String → Headers
  | [], key, v => [(key, [v])]
  | (k, vs) :: rest, key, v =>
    if k = key then (key, [v]) :: rest else (k, vs) :: headerSet rest key v

/-- Go `http.Header.Add`: append one value to the key's value list. -/
def headerAdd : Headers → String → String → Headers
  | [], key, v => [(key, [v])]
  | (k, vs) :: rest, key, v =>
    if k = key then (k, vs ++ [v]) :: rest else (k, vs) :: headerAdd rest key v

/-- UTF-8 encoding of one unicode scalar value. -/
def utf8Bytes (n : Nat) : List Nat :=
  if n < 128 then [n]
  else if n < 2048 then [192 + n / 64, 128 + n % 64]
  else if n < 65536 then [224 + n / 4096, 128 + n / 64 % 64, 128 + n % 64]
  else [240 + n / 262144, 128 + n / 4096 % 64, 128 + n / 64 % 64, 128 + n % 64]

/-- The UTF-8 bytes of a string.  Go strings are byte slices and
`string(payload) == Cfg.Auth` in `checkAuth` compares byte-for-byte. -/
def strBytes (s : String) : List Nat := s.data.flatMap (fun c => utf8Bytes c.toNat)

/-- Value of a character in the standard base64 alphabet
(`A`-`Z`, `a`-`z`, `0`-`9`, `+`, `/`); `none` for any other character. -/
def b64Index (c : Char) : Option Nat :=
  if 65 ≤ c.toNat ∧ c.toNat ≤ 90 then some (c.toNat - 65)
  else if 97 ≤ c.toNat ∧ c.toNat ≤ 122 then some (c.toNat - 97 + 26)
  else if 48 ≤ c.toNat ∧ c.toNat ≤ 57 then some (c.toNat - 48 + 52)
  else if c = '+' then some 62
  else if c = '/' then some 63
  else none

/-- Character of a 6-bit value in the standard base64 alphabet. -/
def b64Char (v : Nat) : Char :=
  if v < 26 then Char.ofNat (65 + v)
  else if v < 52 then Char.ofNat (97 + (v - 26))
  else if v < 62 then Char.ofNat (48 + (v - 52))
  else if v = 62 then '+' else '/'

/-- Decode a final base64 quantum; `=` padding is accepted here (and only
here), as in `base64.StdEncoding`. -/
def decode4 (a b c d : Char) : Option (List Nat) :=
  match b64Index a, b64Index b with
  | some w, some x =>
    if d = '=' then
      if c = '=' then some [w * 4 + x / 16]
      else
        match b64Index c with
        | some y => some [w * 4 + x / 16, x % 16 * 16 + y / 4]
        | none => none
    else
      match b64Index c, b64Index d with
      | some y, some z => some [w * 4 + x / 16, x % 16 * 16 + y / 4, y % 4 * 64 + z]
      | _, _ => none
  | _, _ => none

/-- Decode a sequence of base64 quanta: `=` may occur only in the last
quantum, and a length that is not a multiple of four is an error. -/
def decodeQuads : List Char → Option (List Nat)
  | [] => some []
  | a :: b :: c :: d :: rest =>
    if rest.isEmpty then decode4 a b c d
    else
      match b64Index a, b64Index b, b64Index c, b64Index d with
      | some w, some x, some y, some z =>
        match decodeQuads rest with
        | some more => some ((w * 4 + x / 16) :: (x % 16 * 16 + y / 4) :: (y % 4 * 64 + z) :: more)
        | none => none
      | _, _, _, _ => none
  | _ => none

/-- Go `base64.StdEncoding.DecodeString`: newline characters are ignored
anywhere in the input; everything else must be well-formed padded base64. -/
def base64Decode (s : List Char) : Option (List Nat) :=
  decodeQuads (s.filter (fun c => !(c == '\r' || c == '\n')))

/-- Standard base64 encoding of a byte sequence
(Go `base64.StdEncoding.EncodeToString`). -/
def base64EncodeBytes : List Nat → List Char
  | [] => []
  | [x] => [b64Char (x / 4), b64Char (x % 4 * 16), '=', '=']
  | [x, y] => [b64Char (x / 4), b64Char (x % 4 * 16 + y / 16), b64Char (y % 16 * 4), '=']
  | x :: y :: z :: rest =>
    b64Char (x / 4) :: b64Char (x % 4 * 16 + y / 16) :: b64Char (y % 16 * 4 + z / 64) ::
      b64Char (z % 64) :: base64EncodeBytes rest

/-- Standard base64 encoding of (the UTF-8 bytes of) a string. -/
def base64Encode (s : String) : String := String.mk (base64EncodeBytes (strBytes s))

/-- The effect of Go `strings.SplitN(s, " ", 2)`: split at the first space;
`none` means there is no space, i.e. `SplitN` returned a single field. -/
def splitOnce : List Char → Option (List Char × List Char)
  | [] => none
  | c :: rest =>
    if c = ' ' then some ([], rest)
    else (splitOnce rest).map (fun p => (c :: p.1, p.2))

/-- `checkAuth` from `main.go`: split the header value at the first space,
require exactly two fields with scheme `Basic`, base64-decode the payload
and compare it byte-for-byte with the configured credential. -/
def checkAuth (cfg : config) (auth : String) : Bool :=
  match splitOnce auth.data with
  | none => false
  | some (scheme, payload) =>
    if scheme = "Basic".data then
      match base64Decode payload with
      | none => false
      | some bytes => decide (bytes = strBytes cfg.Auth)
    else false

/-- An inbound request as the handlers see it: method, CONNECT/URL target
host, remote socket address, headers. -/
structure Request where
  method : String
  host : String
  remoteAddr : String
  headers : Headers
deriving Repr, DecidableEq

/-- Where the dispatcher in `main` sends a request: rejected by the
authentication gate with a status, a `Proxy-Authenticate` challenge and a
body, or routed to the tunnel relay (`handleTunneling`) or to the HTTP
forwarder (`handleHTTP`). -/
inductive Route where
  | reject (status : Nat) (proxyAuthenticate : String) (body : String)
  | tunnel
  | forward
deriving Repr, DecidableEq

/-- The anonymous handler in `main`: when a credential is configured, a
missing or failing `Proxy-Authorization` value is answered with 407 and the
challenge header; otherwise CONNECT goes to `handleTunneling` and every
other method to `handleHTTP`. -/
def dispatch (cfg : config) (r : Request) : Route :=
  if cfg.Auth ≠ "" ∧
      (headerGet r.headers "Proxy-Authorization" = "" ∨
        checkAuth cfg (headerGet r.headers "Proxy-Authorization") = false) then
    Route.reject 407 "Basic realm=\"WProxy Basic Authentication\"" "Authorization required"
  else if r.method = "CONNECT" then Route.tunnel
  else Route.forward

/-- Index of the last occurrence of a character, as Go `last(s, b)`. -/
def lastIdxOf : List Char → Char → Option Nat
  | [], _ => none
  | x :: xs, c =>
    match lastIdxOf xs c with
    | some i => some (i + 1)
    | none => if x = c then some 0 else none

/-- Index of the first occurrence of a character, as Go `IndexByteString`. -/
def firstIdxOf : List Char → Char → Option Nat
  | [], _ => none
  | x :: xs, c => if x = c then some 0 else (firstIdxOf xs c).map (fun i => i + 1)

/-- Whether a character occurs in the list. -/
def containsChar (l : List Char) (c : Char) : Bool := (firstIdxOf l c).isSome

/-- Go `net.SplitHostPort` on the characters of the address: the port
starts after the last colon; a leading `[` starts a bracketed IPv6 host
whose `]` must sit just before that colon; stray colons or brackets are
errors (`none`). -/
def splitHostPortL (hp : List Char) : Option (List Char × List Char) :=
  match lastIdxOf hp ':' with
  | none => none
  | some i =>
    if hp.head? = some '[' then
      match firstIdxOf hp ']' with
      | none => none
      | some e =>
        if e + 1 = hp.length then none
        else if e + 1 = i then
          if containsChar (hp.drop 1) '[' then none
          else if containsChar (hp.drop (e + 1)) ']' then none
          else some ((hp.drop 1).take (e - 1), hp.drop (i + 1))
        else none
    else
      if containsChar (hp.take i) ':' then none
      else if containsChar hp '[' then none
      else if containsChar hp ']' then none
      else some (hp.take i, hp.drop (i + 1))

/-- Go `net.SplitHostPort` on strings; `none` is the error case. -/
def splitHostPort (s : String) : Option (String × String) :=
  (splitHostPortL s.data).map (fun p => (String.mk p.1, String.mk p.2))

/-- The transparent-proxy step of `handleHTTP`: when `TProxy` is set and
the remote address splits into host and port, join any existing
`X-Forwarded-For` values with `", "`, append `", "` and the remote host,
and `Set` the result; when the split fails, or `TProxy` is off, the headers
are left untouched. -/
def tproxyRewrite (cfg : config) (h : Headers) (remoteAddr : String) : Headers :=
  if cfg.TProxy then
    match splitHostPort remoteAddr with
    | some (clientIP, _) =>
      match headerLookup h "X-Forwarded-For" with
      | some v => headerSet h "X-Forwarded-For" (String.intercalate ", " v ++ ", " ++ clientIP)
      | none => headerSet h "X-Forwarded-For" clientIP
    | none => h
  else h

/-- An origin response: status line, headers, body bytes. -/
structure Response where
  status : Nat
  headers : Headers
  body : List Nat
deriving Repr, DecidableEq

/-- Result of `http.DefaultTransport.RoundTrip`: a transport error or a
response. -/
inductive OriginResult where
  | failure (msg : String)
  | success (resp : Response)
deriving Repr, DecidableEq

/-- What the client observes from `handleHTTP`: an `http.Error` response,
or the relayed origin status, headers and body. -/
inductive HTTPOutcome where
  | errorResponse (status : Nat) (body : String)
  | relayed (status : Nat) (headers : Headers) (body : List Nat)
deriving Repr, DecidableEq

/-- `copyHeader` from `main.go`: for every key of `src`, `Add` each of its
values in order to `dst`. -/
def copyHeader (dst src : Headers) : Headers :=
  src.foldl (fun d p => p.2.foldl (fun d2 v => headerAdd d2 p.1 v) d) dst

/-- `handleHTTP` from `main.go`: apply the transparent-proxy header rewrite,
round-trip the request through the transport; an error yields
`http.Error(w, err, 503)`, a response is relayed by `copyHeader` into the
empty response-writer header map, `WriteHeader(resp.StatusCode)` and a body
copy. -/
def handleHTTP (cfg : config) (r : Request) (transport : Request → OriginResult) : HTTPOutcome :=
  match transport { r with headers := tproxyRewrite cfg r.headers r.remoteAddr } with
  | OriginResult.failure msg => HTTPOutcome.errorResponse 503 msg
  | OriginResult.success resp =>
    HTTPOutcome.relayed resp.status (copyHeader [] resp.headers) resp.body

/-- The two connections of a tunnel: the hijacked client connection and the
dialed destination connection. -/
inductive Conn where
  | client
  | dest
deriving Repr, DecidableEq

/-- An observable action of `handleTunneling`: writing a status header,
an `http.Error` call, or spawning a `transfer` goroutine that copies from
`src` to `dst`. -/
inductive TAct where
  | writeHeader (status : Nat)
  | httpError (status : Nat) (body : String)
  | spawnTransfer (dst src : Conn)
deriving Repr, DecidableEq

/-- The environment a CONNECT request meets: result of
`net.DialTimeout("tcp", r.Host, 10s)`, whether the response writer supports
hijacking, and the result of the `Hijack()` call. -/
structure TunnelEnv where
  dialResult : Except String Unit
  hijackSupported : Bool
  hijackResult : Except String Unit
deriving Repr

/-- `handleTunneling` from `main.go` as the ordered trace of the actions it
performs: a dial error is answered `http.Error(w, err, 503)` and the
handler returns; otherwise it writes status 200, answers 500 and returns if
hijacking is unsupported, answers 503 after a failed `Hijack()` without
returning, and spawns `transfer(destConn, clientConn)` and
`transfer(clientConn, destConn)`. -/
def handleTunneling (env : TunnelEnv) : List TAct :=
  match env.dialResult with
  | Except.error e => [TAct.httpError 503 e]
  | Except.ok _ =>
    TAct.writeHeader 200 ::
      if env.hijackSupported = false then [TAct.httpError 500 "Hijacking not supported"]
      else
        (match env.hijackResult with
         | Except.error e => [TAct.httpError 503 e]
         | Except.ok _ => []) ++
        [TAct.spawnTransfer Conn.dest Conn.client, TAct.spawnTransfer Conn.client Conn.dest]

/-- State of one network connection: whether it is still open and how many
times it has actually transitioned from open to closed (`Close` on an
already-closed connection returns an error without closing again). -/
structure ConnState where
  isOpen : Bool
  closes : Nat
deriving Repr, DecidableEq

/-- The joint state of the two tunnel connections. -/
def TunnelState := Conn → ConnState

/-- Both connections open, never closed: the state right after a successful
dial and hijack. -/
def tunnelInit : TunnelState := fun _ => { isOpen := true, closes := 0 }

/-- Effect of one `Close()` call on a connection. -/
def applyClose (s : ConnState) : ConnState :=
  if s.isOpen then { isOpen := false, closes := s.closes + 1 } else s

/-- Effect of `c.Close()` on the tunnel state. -/
def closeConn (s : TunnelState) (c : Conn) : TunnelState :=
  fun c2 => if c2 = c then applyClose (s c) else s c2

/-- Run a schedule (an interleaved sequence of `Close()` calls). -/
def runSchedule (s : TunnelState) (sched : List Conn) : TunnelState :=
  sched.foldl closeConn s

/-- The `Close()` calls `transfer(destination, source)` makes on
completion, in `defer` (last-in first-out) order: `source.Close()` runs
after `destination.Close()` was deferred, so the order is source then
destination. -/
def transferCloses (destination source : Conn) : List Conn := [source, destination]

/-- `zs` is an interleaving of `xs` and `ys` preserving the order within
each: the possible global orders of the `Close()` calls of the two
independent `transfer` goroutines. -/
inductive Interleaving : List Conn → List Conn → List Conn → Prop
  | nil : Interleaving [] [] []
  | left {x : Conn} {xs ys zs : List Conn} :
      Interleaving xs ys zs → Interleaving (x :: xs) ys (x :: zs)
  | right {y : Conn} {xs ys zs : List Conn} :
      Interleaving xs ys zs → Interleaving xs (y :: ys) (y :: zs)

/-! ### Header map lemmas -/

theorem headerLookup_headerSet_self (h : Headers) (k v : String) :
    headerLookup (headerSet h k v) k = some [v] := by
  induction h with
  | nil => simp [headerSet, headerLookup]
  | cons p rest ih =>
    obtain ⟨k2, vs⟩ := p
    by_cases hk : k2 = k
    · subst hk
      simp [headerSet, headerLookup]
    · simp [headerSet, headerLookup, hk, ih]

theorem headerLookup_headerAdd_self (d : Headers) (k v : String) :
    headerLookup (headerAdd d k v) k = some ((headerLookup d k).getD [] ++ [v]) := by
  induction d with
  | nil => simp [headerAdd, headerLookup]
  | cons p rest ih =>
    obtain ⟨k2, vs⟩ := p
    by_cases hk : k2 = k
    · subst hk
      simp [headerAdd, headerLookup]
    · simp [headerAdd, headerLookup, hk, ih]

theorem headerLookup_headerAdd_other (d : Headers) (k v k2 : String) (hne : k ≠ k2) :
    headerLookup (headerAdd d k v) k2 = headerLookup d k2 := by
  induction d with
  | nil => simp [headerAdd, headerLookup, hne]
  | cons p rest ih =>
    obtain ⟨k3, vs⟩ := p
    by_cases hk : k3 = k
    · subst hk
      simp [headerAdd, headerLookup, hne, ih]
    · simp [headerAdd, headerLookup, hk, ih]

/-! ### Lemmas about the inner loop of `copyHeader` -/

theorem lookup_foldAdd_some (vs : List String) (d : Headers) (k : String) (us : List String)
    (h : headerLookup d k = some us) :
    headerLookup (vs.foldl (fun d2 v => headerAdd d2 k v) d) k = some (us ++ vs) := by
  induction vs generalizing d us with
  | nil => simpa using h
  | cons v rest ih =>
    have h2 : headerLookup (headerAdd d k v) k = some (us ++ [v]) := by
      rw [headerLookup_headerAdd_self, h]
      rfl
    simpa using ih (headerAdd d k v) (us ++ [v]) h2

theorem lookup_foldAdd_none (vs : List String) (d : Headers) (k : String)
    (h : headerLookup d k = none) (hvs : vs ≠ []) :
    headerLookup (vs.foldl (fun d2 v => headerAdd d2 k v) d) k = some vs := by
  match vs with
  | [] => exact absurd rfl hvs
  | v :: rest =>
    have h2 : headerLookup (headerAdd d k v) k = some [v] := by
      rw [headerLookup_headerAdd_self, h]
      rfl
    simpa using lookup_foldAdd_some rest (headerAdd d k v) k [v] h2

theorem lookup_foldAdd_other (vs : List String) (d : Headers) (k k2 : String) (hne : k ≠ k2) :
    headerLookup (vs.foldl (fun d2 v => headerAdd d2 k v) d) k2 = headerLookup d k2 := by
  induction vs generalizing d with
  | nil => rfl
  | cons v rest ih =>
    simpa [headerLookup_headerAdd_other d k v k2 hne] using
      ih (headerAdd d k v)

theorem copyHeader_lookup_not_mem (src : Headers) (d : Headers) (k : String)
    (hk : k ∉ src.map Prod.fst) :
    headerLookup (copyHeader d src) k = headerLookup d k := by
  induction src generalizing d with
  | nil => rfl
  | cons p rest ih =>
    obtain ⟨k2, vs⟩ := p
    simp only [List.map_cons, List.mem_cons, not_or] at hk
    have step : headerLookup (vs.foldl (fun d2 v => headerAdd d2 k2 v) d) k = headerLookup d k :=
      lookup_foldAdd_other vs d k2 k (fun hcon => hk.1 hcon.symm)
    simpa [copyHeader, step] using ih (vs.foldl (fun d2 v => headerAdd d2 k2 v) d) hk.2

theorem copyHeader_lookup_aux (src : Headers) (d : Headers) (k : String) (vs : List String)
    (hnd : (src.map Prod.fst).Nodup) (hmem : (k, vs) ∈ src) (hvs : vs ≠ [])
    (hd : headerLookup d k = none) :
    headerLookup (copyHeader d src) k = some vs := by
  induction src generalizing d with
  | nil => simp at hmem
  | cons p rest ih =>
    obtain ⟨k2, vs2⟩ := p
    simp only [List.map_cons, List.nodup_cons] at hnd
    rcases List.mem_cons.mp hmem with hhead | htail
    · obtain ⟨hk, hv⟩ := Prod.mk.injEq .. ▸ hhead
      cases hk.symm
      cases hv.symm
      have step : headerLookup (vs.foldl (fun d2 v => headerAdd d2 k v) d) k = some vs :=
        lookup_foldAdd_none vs d k hd hvs
      have hrest : k ∉ rest.map Prod.fst := hnd.1
      calc headerLookup (copyHeader d ((k, vs) :: rest)) k
          = headerLookup (copyHeader (vs.foldl (fun d2 v => headerAdd d2 k v) d) rest) k := rfl
        _ = some vs := by
            rw [copyHeader_lookup_not_mem rest _ k hrest, step]
    · have hk2 : k2 ≠ k := by
        intro hcon
        subst hcon
        exact hnd.1 (List.mem_map.mpr ⟨(k2, vs), htail, rfl⟩)
      have step : headerLookup (vs2.foldl (fun d2 v => headerAdd d2 k2 v) d) k = none := by
        rw [lookup_foldAdd_other vs2 d k2 k hk2, hd]
      simpa [copyHeader] using ih (vs2.foldl (fun d2 v => headerAdd d2 k2 v) d) hnd.2 htail step

/-! ### Tunnel close-schedule lemmas -/

theorem runSchedule_closed (sched : List Conn) (s : TunnelState) (c : Conn)
    (h : (s c).isOpen = false) : (runSchedule s sched) c = s c := by
  induction sched generalizing s with
  | nil => rfl
  | cons a rest ih =>
    have step : (closeConn s a) c = s c := by
      by_cases hc : c = a
      · subst hc
        simp [closeConn, applyClose, h]
      · simp [closeConn, hc]
    have h2 : ((closeConn s a) c).isOpen = false := by rw [step]; exact h
    calc (runSchedule s (a :: rest)) c = (runSchedule (closeConn s a) rest) c := rfl
      _ = (closeConn s a) c := ih (closeConn s a) h2
      _ = s c := step

theorem runSchedule_closes_once (sched : List Conn) (s : TunnelState) (c : Conn)
    (hopen : (s c).isOpen = true) (hz : (s c).closes = 0) (hmem : c ∈ sched) :
    ((runSchedule s sched) c).closes = 1 ∧ ((runSchedule s sched) c).isOpen = false := by
  induction sched generalizing s with
  | nil => simp at hmem
  | cons a rest ih =>
    by_cases hc : c = a
    · subst hc
      have step : (closeConn s c) c = { isOpen := false, closes := 1 } := by
        simp [closeConn, applyClose, hopen, hz]
      have final : (runSchedule (closeConn s c) rest) c = { isOpen := false, closes := 1 } := by
        rw [runSchedule_closed rest (closeConn s c) c (by rw [step]), step]
      constructor
      · show ((runSchedule (closeConn s c) rest) c).closes = 1
        rw [final]
      · show ((runSchedule (closeConn s c) rest) c).isOpen = false
        rw [final]
    · have step : (closeConn s a) c = s c := by simp [closeConn, hc]
      have hmem2 : c ∈ rest := by
        rcases List.mem_cons.mp hmem with h | h
        · exact absurd h hc
        · exact h
      exact ih (closeConn s a) (by rw [step]; exact hopen) (by rw [step]; exact hz) hmem2

theorem Interleaving.mem_left {xs ys zs : List Conn} (h : Interleaving xs ys zs) :
    ∀ a ∈ xs, a ∈ zs := by
  induction h with
  | nil => intro a ha; simp at ha
  | left _ ih =>
    intro a ha
    rcases List.mem_cons.mp ha with h | h
    · exact h ▸ List.mem_cons_self _ _
    · exact List.mem_cons_of_mem _ (ih a h)
  | right _ ih =>
    intro a ha
    exact List.mem_cons_of_mem _ (ih a ha)

/-! ### Claim theorems (first batch) -/

/-- C2: when transparent-proxy mode is on and the remote address splits into
host and port, `handleHTTP`'s rewrite sets `X-Forwarded-For` to the existing
chain value followed by `", "` and the remote host when the header is
already present, and to exactly the remote host when it is absent. -/
theorem xff_chain_c2 (cfg : config) (h : Headers) (addr host port : String)
    (hT : cfg.TProxy = true) (hsp : splitHostPort addr = some (host, port)) :
    (∀ v : String, headerLookup h "X-Forwarded-For" = some [v] →
      headerLookup (tproxyRewrite cfg h addr) "X-Forwarded-For" = some [v ++ ", " ++ host]) ∧
    (headerLookup h "X-Forwarded-For" = none →
      headerLookup (tproxyRewrite cfg h addr) "X-Forwarded-For" = some [host]) := by
  constructor
  · intro v hv
    have hjoin : String.intercalate ", " [v] = v := by
      simp [String.intercalate, String.intercalate.go]
    simp only [tproxyRewrite, hT, if_true, hsp, hv, hjoin]
    exact headerLookup_headerSet_self h "X-Forwarded-For" (v ++ ", " ++ host)
  · intro hv
    simp only [tproxyRewrite, hT, if_true, hsp, hv]
    exact headerLookup_headerSet_self h "X-Forwarded-For" host

/-- C2 witness: inbound chain `"A"` from remote `"B:1234"` becomes `"A, B"`;
with no inbound chain it becomes `"B"`. -/
theorem xff_chain_c2_witness :
    headerLookup (tproxyRewrite ⟨"0.0.0.0", "8888", "", true, false⟩
      [("X-Forwarded-For", ["A"])] "B:1234") "X-Forwarded-For" = some ["A, B"] ∧
    headerLookup (tproxyRewrite ⟨"0.0.0.0", "8888", "", true, false⟩ [] "B:1234")
      "X-Forwarded-For" = some ["B"] := by
  constructor
  · exact (xff_chain_c2 ⟨"0.0.0.0", "8888", "", true, false⟩ [("X-Forwarded-For", ["A"])]
      "B:1234" "B" "1234" rfl (by decide)).1 "A" (by decide)
  · exact (xff_chain_c2 ⟨"0.0.0.0", "8888", "", true, false⟩ [] "B:1234" "B" "1234" rfl
      (by decide)).2 (by decide)

/-- C9: when transparent-proxy mode is on but the remote address does not
split into host and port, `handleHTTP` leaves the headers untouched and
forwards the request unchanged to the transport. -/
theorem tproxy_badaddr_c9 (cfg : config) (r : Request) (transport : Request → OriginResult)
    (hT : cfg.TProxy = true) (hsp : splitHostPort r.remoteAddr = none) :
    tproxyRewrite cfg r.headers r.remoteAddr = r.headers ∧
    handleHTTP cfg r transport =
      (match transport r with
       | OriginResult.failure msg => HTTPOutcome.errorResponse 503 msg
       | OriginResult.success resp =>
         HTTPOutcome.relayed resp.status (copyHeader [] resp.headers) resp.body) := by
  have hrw : tproxyRewrite cfg r.headers r.remoteAddr = r.headers := by
    simp [tproxyRewrite, hT, hsp]
  refine ⟨hrw, ?_⟩
  show (match transport { r with headers := tproxyRewrite cfg r.headers r.remoteAddr } with
        | OriginResult.failure msg => HTTPOutcome.errorResponse 503 msg
        | OriginResult.success resp =>
          HTTPOutcome.relayed resp.status (copyHeader [] resp.headers) resp.body) = _
  rw [hrw]

/-- C9 witness: remote address `"localhost"` has no port, the headers pass
through unchanged. -/
theorem tproxy_badaddr_c9_witness :
    tproxyRewrite ⟨"0.0.0.0", "8888", "", true, false⟩
      [("X-Forwarded-For", ["A"])] "localhost" = [("X-Forwarded-For", ["A"])] := by
  exact (tproxy_badaddr_c9 ⟨"0.0.0.0", "8888", "", true, false⟩
    ⟨"GET", "example.com", "localhost", [("X-Forwarded-For", ["A"])]⟩
    (fun _ => OriginResult.failure "x") rfl (by decide)).1

/-- C4: a failing destination dial makes `handleTunneling` answer
`http.Error(w, err, 503)` and return; no `transfer` goroutine is spawned. -/
theorem tunnel_dial_fail_c4 (env : TunnelEnv) (e : String)
    (hd : env.dialResult = Except.error e) :
    handleTunneling env = [TAct.httpError 503 e] ∧
    ∀ d s : Conn, TAct.spawnTransfer d s ∉ handleTunneling env := by
  have htr : handleTunneling env = [TAct.httpError 503 e] := by
    simp [handleTunneling, hd]
  refine ⟨htr, ?_⟩
  intro d s hmem
  rw [htr] at hmem
  simp at hmem

/-- C4 witness: a concrete refused dial yields exactly the 503 error. -/
theorem tunnel_dial_fail_c4_witness :
    handleTunneling ⟨Except.error "dial tcp: connection refused", true, Except.ok ()⟩ =
      [TAct.httpError 503 "dial tcp: connection refused"] :=
  (tunnel_dial_fail_c4 ⟨Except.error "dial tcp: connection refused", true, Except.ok ()⟩
    "dial tcp: connection refused" rfl).1

/-- C6: after a successful dial, a response writer that does not support
hijacking makes the handler answer `http.Error(w, _, 500)` and return with
no `transfer` goroutine spawned (the full trace also records the 200 status
written before the capability check). -/
theorem tunnel_no_hijack_c6 (env : TunnelEnv)
    (hd : env.dialResult = Except.ok ()) (hh : env.hijackSupported = false) :
    handleTunneling env = [TAct.writeHeader 200, TAct.httpError 500 "Hijacking not supported"] ∧
    TAct.httpError 500 "Hijacking not supported" ∈ handleTunneling env ∧
    ∀ d s : Conn, TAct.spawnTransfer d s ∉ handleTunneling env := by
  have htr : handleTunneling env =
      [TAct.writeHeader 200, TAct.httpError 500 "Hijacking not supported"] := by
    simp [handleTunneling, hd, hh]
  refine ⟨htr, ?_, ?_⟩
  · rw [htr]; simp
  · intro d s hmem
    rw [htr] at hmem
    simp at hmem

/-- C6 witness: concrete environment without hijack support. -/
theorem tunnel_no_hijack_c6_witness :
    handleTunneling ⟨Except.ok (), false, Except.ok ()⟩ =
      [TAct.writeHeader 200, TAct.httpError 500 "Hijacking not supported"] :=
  (tunnel_no_hijack_c6 ⟨Except.ok (), false, Except.ok ()⟩ rfl rfl).1

/-- C10: when the dial succeeds, hijacking is supported but the `Hijack()`
call itself fails, the handler answers `http.Error(w, err, 503)` and still
spawns both `transfer` goroutines, because the error branch does not
return. -/
theorem tunnel_hijack_err_c10 (env : TunnelEnv) (e : String)
    (hd : env.dialResult = Except.ok ()) (hh : env.hijackSupported = true)
    (he : env.hijackResult = Except.error e) :
    handleTunneling env = [TAct.writeHeader 200, TAct.httpError 503 e,
      TAct.spawnTransfer Conn.dest Conn.client, TAct.spawnTransfer Conn.client Conn.dest] := by
  simp [handleTunneling, hd, hh, he]

/-- C10 witness: a concrete failing hijack still spawns both copy tasks. -/
theorem tunnel_hijack_err_c10_witness :
    handleTunneling ⟨Except.ok (), true, Except.error "hijack failed"⟩ =
      [TAct.writeHeader 200, TAct.httpError 503 "hijack failed",
        TAct.spawnTransfer Conn.dest Conn.client, TAct.spawnTransfer Conn.client Conn.dest] :=
  tunnel_hijack_err_c10 ⟨Except.ok (), true, Except.error "hijack failed"⟩ "hijack failed"
    rfl rfl rfl

/-- C5: for every interleaving of the `Close()` calls of the two `transfer`
goroutines, each tunnel connection ends closed and transitions from open to
closed exactly once, no matter which direction finishes first. -/
theorem tunnel_close_once_c5 (sched : List Conn)
    (h : Interleaving (transferCloses Conn.dest Conn.client)
      (transferCloses Conn.client Conn.dest) sched) :
    ∀ c : Conn, ((runSchedule tunnelInit sched) c).closes = 1 ∧
      ((runSchedule tunnelInit sched) c).isOpen = false := by
  intro c
  have hmem : c ∈ sched := by
    apply h.mem_left
    cases c
    · exact List.mem_cons_self _ _
    · exact List.mem_cons_of_mem _ (List.mem_cons_self _ _)
  exact runSchedule_closes_once sched tunnelInit c rfl rfl hmem

/-- C5 witness: a concrete interleaving (first goroutine's two closes, then
the second's) closes each connection exactly once. -/
theorem tunnel_close_once_c5_witness :
    ((runSchedule tunnelInit [Conn.client, Conn.dest, Conn.dest, Conn.client]) Conn.client).closes
        = 1 ∧
    ((runSchedule tunnelInit [Conn.client, Conn.dest, Conn.dest, Conn.client]) Conn.dest).closes
        = 1 := by
  have h := tunnel_close_once_c5 [Conn.client, Conn.dest, Conn.dest, Conn.client]
    (Interleaving.left (Interleaving.left (Interleaving.right (Interleaving.right
      Interleaving.nil))))
  exact ⟨(h Conn.client).1, (h Conn.dest).1⟩

/-- C7: the dispatcher evaluates the authentication gate first and
short-circuits to the 407 rejection (so no handler, hence no dial or
forward, is reached); a passing request is routed by method, CONNECT to the
tunnel relay and everything else to the HTTP forwarder. -/
theorem dispatch_order_c7 (cfg : config) (r : Request) :
    (cfg.Auth ≠ "" →
      (headerGet r.headers "Proxy-Authorization" = "" ∨
        checkAuth cfg (headerGet r.headers "Proxy-Authorization") = false) →
      dispatch cfg r =
        Route.reject 407 "Basic realm=\"WProxy Basic Authentication\"" "Authorization required") ∧
    ((cfg.Auth = "" ∨ (headerGet r.headers "Proxy-Authorization" ≠ "" ∧
        checkAuth cfg (headerGet r.headers "Proxy-Authorization") = true)) →
      dispatch cfg r = if r.method = "CONNECT" then Route.tunnel else Route.forward) := by
  constructor
  · intro hA hfail
    simp [dispatch, hA, hfail]
  · intro hpass
    rcases hpass with hA | ⟨hne, hok⟩
    · simp [dispatch, hA]
    · simp [dispatch, hne, hok]

/-- C7 witness: with a credential configured and no header, the request is
rejected with 407 before any routing. -/
theorem dispatch_order_c7_witness :
    dispatch ⟨"0.0.0.0", "8888", "tt:123", false, false⟩ ⟨"GET", "example.com", "1.2.3.4:5", []⟩ =
      Route.reject 407 "Basic realm=\"WProxy Basic Authentication\"" "Authorization required" :=
  (dispatch_order_c7 ⟨"0.0.0.0", "8888", "tt:123", false, false⟩
    ⟨"GET", "example.com", "1.2.3.4:5", []⟩).1 (by decide) (Or.inl (by decide))

/-- C8: a failing origin round-trip makes `handleHTTP` answer
`http.Error(w, err, 503)`; nothing of an origin response is relayed. -/
theorem http_roundtrip_fail_c8 (cfg : config) (r : Request)
    (transport : Request → OriginResult) (msg : String)
    (h : transport { r with headers := tproxyRewrite cfg r.headers r.remoteAddr } =
      OriginResult.failure msg) :
    handleHTTP cfg r transport = HTTPOutcome.errorResponse 503 msg ∧
    ∀ (st : Nat) (hs : Headers) (b : List Nat),
      handleHTTP cfg r transport ≠ HTTPOutcome.relayed st hs b := by
  have hout : handleHTTP cfg r transport = HTTPOutcome.errorResponse 503 msg := by
    simp [handleHTTP, h]
  refine ⟨hout, ?_⟩
  intro st hs b hcon
  rw [hout] at hcon
  exact HTTPOutcome.noConfusion hcon

/-- C8 witness: a concrete transport failure yields the 503 error
response. -/
theorem http_roundtrip_fail_c8_witness :
    handleHTTP ⟨"0.0.0.0", "8888", "", false, false⟩ ⟨"GET", "example.com", "1.2.3.4:5", []⟩
      (fun _ => OriginResult.failure "dial tcp: no route to host") =
      HTTPOutcome.errorResponse 503 "dial tcp: no route to host" :=
  (http_roundtrip_fail_c8 ⟨"0.0.0.0", "8888", "", false, false⟩
    ⟨"GET", "example.com", "1.2.3.4:5", []⟩
    (fun _ => OriginResult.failure "dial tcp: no route to host")
    "dial tcp: no route to host" rfl).1

/-- C3: when the origin round-trip succeeds, `handleHTTP` relays the
origin's status code and body unchanged, and `copyHeader` gives every key
present in the origin response all of that key's values in their original
order. -/
theorem http_relay_c3 (cfg : config) (r : Request) (transport : Request → OriginResult)
    (resp : Response)
    (h : transport { r with headers := tproxyRewrite cfg r.headers r.remoteAddr } =
      OriginResult.success resp)
    (hnd : (resp.headers.map Prod.fst).Nodup)
    (hne : ∀ p ∈ resp.headers, p.2 ≠ []) :
    handleHTTP cfg r transport =
      HTTPOutcome.relayed resp.status (copyHeader [] resp.headers) resp.body ∧
    ∀ (k : String) (vs : List String), (k, vs) ∈ resp.headers →
      headerLookup (copyHeader [] resp.headers) k = some vs := by
  constructor
  · simp [handleHTTP, h]
  · intro k vs hmem
    exact copyHeader_lookup_aux resp.headers [] k vs hnd hmem (hne (k, vs) hmem) rfl

/-- C3 witness: origin 201 with `X-A: 1`, `X-A: 2` and body `"ok"` reaches
the client as 201 with both `X-A` values in order and body `"ok"`. -/
theorem http_relay_c3_witness :
    handleHTTP ⟨"0.0.0.0", "8888", "", false, false⟩ ⟨"GET", "example.com", "1.2.3.4:5", []⟩
        (fun _ => OriginResult.success ⟨201, [("X-A", ["1", "2"])], strBytes "ok"⟩) =
      HTTPOutcome.relayed 201 [("X-A", ["1", "2"])] (strBytes "ok") ∧
    headerLookup (copyHeader [] [("X-A", ["1", "2"])]) "X-A" = some ["1", "2"] := by
  have h := http_relay_c3 ⟨"0.0.0.0", "8888", "", false, false⟩
    ⟨"GET", "example.com", "1.2.3.4:5", []⟩
    (fun _ => OriginResult.success ⟨201, [("X-A", ["1", "2"])], strBytes "ok"⟩)
    ⟨201, [("X-A", ["1", "2"])], strBytes "ok"⟩ rfl (by decide) (by decide)
  refine ⟨?_, h.2 "X-A" ["1", "2"] (by decide)⟩
  have hcopy : copyHeader [] [("X-A", ["1", "2"])] = [("X-A", ["1", "2"])] := by decide
  rw [h.1, hcopy]



/-! ### Base64 and credential lemmas -/

theorem b64_rt : ∀ v : Nat, v < 64 → b64Index (b64Char v) = some v := by decide

theorem b64Char_nice : ∀ v : Nat, v < 64 →
    (b64Char v ≠ '=' ∧ b64Char v ≠ '\r' ∧ b64Char v ≠ '\n') := by decide

theorem encode_ne_nil (bs : List Nat) (h : bs ≠ []) : base64EncodeBytes bs ≠ [] := by
  match bs with
  | [] => exact absurd rfl h
  | [x] => simp [base64EncodeBytes]
  | [x, y] => simp [base64EncodeBytes]
  | x :: y :: z :: rest => simp [base64EncodeBytes]

theorem decode_encode :
    ∀ bs : List Nat, (∀ b ∈ bs, b < 256) → decodeQuads (base64EncodeBytes bs) = some bs := by
  intro bs
  induction bs using base64EncodeBytes.induct with
  | case1 => intro _; rfl
  | case2 x =>
    intro h
    have hx : x < 256 := h x (by simp)
    simp only [base64EncodeBytes, decodeQuads, List.isEmpty_nil, if_true, decode4]
    rw [b64_rt (x / 4) (by omega), b64_rt (x % 4 * 16) (by omega)]
    simp only [if_pos rfl, Option.some.injEq, List.cons.injEq, and_true]
    omega
  | case3 x y =>
    intro h
    have hx : x < 256 := h x (by simp)
    have hy : y < 256 := h y (by simp)
    have hc : b64Char (y % 16 * 4) ≠ '=' := (b64Char_nice (y % 16 * 4) (by omega)).1
    simp only [base64EncodeBytes, decodeQuads, List.isEmpty_nil, if_true, decode4]
    rw [b64_rt (x / 4) (by omega), b64_rt (x % 4 * 16 + y / 16) (by omega)]
    simp only [if_pos rfl, if_neg hc]
    rw [b64_rt (y % 16 * 4) (by omega)]
    simp only [Option.some.injEq, List.cons.injEq, and_true]
    omega
  | case4 x y z rest ih =>
    intro h
    have hx : x < 256 := h x (by simp)
    have hy : y < 256 := h y (by simp)
    have hz : z < 256 := h z (by simp)
    have hrest : ∀ b ∈ rest, b < 256 := fun b hb => h b (by simp [hb])
    cases rest with
    | nil =>
      have hd : b64Char (z % 64) ≠ '=' := (b64Char_nice (z % 64) (by omega)).1
      simp only [base64EncodeBytes, decodeQuads, List.isEmpty_nil, if_true, decode4]
      rw [b64_rt (x / 4) (by omega), b64_rt (x % 4 * 16 + y / 16) (by omega),
        b64_rt (y % 16 * 4 + z / 64) (by omega), b64_rt (z % 64) (by omega)]
      simp only [if_neg hd, Option.some.injEq, List.cons.injEq, and_true]
      omega
    | cons r0 rest2 =>
      have hne : base64EncodeBytes (r0 :: rest2) ≠ [] := encode_ne_nil _ (by simp)
      have hie : (base64EncodeBytes (r0 :: rest2)).isEmpty = false := by
        simpa [List.isEmpty_iff] using hne
      show decodeQuads (b64Char (x / 4) :: b64Char (x % 4 * 16 + y / 16) ::
        b64Char (y % 16 * 4 + z / 64) :: b64Char (z % 64) ::
        base64EncodeBytes (r0 :: rest2)) = some (x :: y :: z :: r0 :: rest2)
      simp only [decodeQuads, hie, Bool.false_eq_true, if_false]
      rw [b64_rt (x / 4) (by omega), b64_rt (x % 4 * 16 + y / 16) (by omega),
        b64_rt (y % 16 * 4 + z / 64) (by omega), b64_rt (z % 64) (by omega)]
      rw [ih hrest]
      simp only [Option.some.injEq, List.cons.injEq, and_true]
      omega



theorem encode_mem :
    ∀ bs : List Nat, (∀ b ∈ bs, b < 256) →
      ∀ c ∈ base64EncodeBytes bs, c = '=' ∨ ∃ v, v < 64 ∧ c = b64Char v := by
  intro bs
  induction bs using base64EncodeBytes.induct with
  | case1 => intro _ c hc; simp [base64EncodeBytes] at hc
  | case2 x =>
    intro h c hc
    have hx : x < 256 := h x (by simp)
    simp only [base64EncodeBytes, List.mem_cons, List.not_mem_nil, or_false] at hc
    rcases hc with rfl | rfl | rfl | rfl
    · exact Or.inr ⟨x / 4, by omega, rfl⟩
    · exact Or.inr ⟨x % 4 * 16, by omega, rfl⟩
    · exact Or.inl rfl
    · exact Or.inl rfl
  | case3 x y =>
    intro h c hc
    have hx : x < 256 := h x (by simp)
    have hy : y < 256 := h y (by simp)
    simp only [base64EncodeBytes, List.mem_cons, List.not_mem_nil, or_false] at hc
    rcases hc with rfl | rfl | rfl | rfl
    · exact Or.inr ⟨x / 4, by omega, rfl⟩
    · exact Or.inr ⟨x % 4 * 16 + y / 16, by omega, rfl⟩
    · exact Or.inr ⟨y % 16 * 4, by omega, rfl⟩
    · exact Or.inl rfl
  | case4 x y z rest ih =>
    intro h c hc
    have hx : x < 256 := h x (by simp)
    have hy : y < 256 := h y (by simp)
    have hz : z < 256 := h z (by simp)
    have hrest : ∀ b ∈ rest, b < 256 := fun b hb => h b (by simp [hb])
    simp only [base64EncodeBytes, List.mem_cons] at hc
    rcases hc with rfl | rfl | rfl | rfl | hmem
    · exact Or.inr ⟨x / 4, by omega, rfl⟩
    · exact Or.inr ⟨x % 4 * 16 + y / 16, by omega, rfl⟩
    · exact Or.inr ⟨y % 16 * 4 + z / 64, by omega, rfl⟩
    · exact Or.inr ⟨z % 64, by omega, rfl⟩
    · exact ih hrest c hmem

theorem encode_filter (bs : List Nat) (h : ∀ b ∈ bs, b < 256) :
    (base64EncodeBytes bs).filter (fun c => !(c == '\r' || c == '\n')) = base64EncodeBytes bs := by
  rw [List.filter_eq_self]
  intro c hc
  rcases encode_mem bs h c hc with rfl | ⟨v, hv, rfl⟩
  · decide
  · have := b64Char_nice v hv
    simp [this.2.1, this.2.2]

theorem base64Decode_encode (bs : List Nat) (h : ∀ b ∈ bs, b < 256) :
    base64Decode (base64EncodeBytes bs) = some bs := by
  unfold base64Decode
  rw [encode_filter bs h]
  exact decode_encode bs h

theorem splitOnce_append_space (l r : List Char) (hl : ' ' ∉ l) :
    splitOnce (l ++ ' ' :: r) = some (l, r) := by
  induction l with
  | nil => simp [splitOnce]
  | cons c rest ih =>
    simp only [List.mem_cons, not_or] at hl
    have hc : ¬ c = ' ' := fun hcon => hl.1 hcon.symm
    show splitOnce (c :: (rest ++ ' ' :: r)) = some (c :: rest, r)
    simp only [splitOnce, if_neg hc, ih hl.2]
    rfl

theorem splitOnce_eq_some :
    ∀ xs l r : List Char, splitOnce xs = some (l, r) → xs = l ++ ' ' :: r ∧ ' ' ∉ l := by
  intro xs
  induction xs with
  | nil => intro l r h; simp [splitOnce] at h
  | cons c rest ih =>
    intro l r h
    by_cases hc : c = ' '
    · subst hc
      simp only [splitOnce, if_pos rfl] at h
      simp at h
      obtain ⟨h1, h2⟩ := h
      subst h1
      subst h2
      simp
    · simp only [splitOnce, if_neg hc] at h
      match hs : splitOnce rest with
      | none => rw [hs] at h; simp at h
      | some (l2, r2) =>
        rw [hs] at h
        simp at h
        obtain ⟨h1, h2⟩ := h
        subst h2
        obtain ⟨hx, hnl⟩ := ih l2 r2 hs
        subst hx
        subst h1
        constructor
        · rw [List.cons_append]
        · intro hcon
          rcases List.mem_cons.mp hcon with heq | hmem
          · exact hc heq.symm
          · exact hnl hmem

theorem checkAuth_eq_true_iff (cfg : config) (v : String) :
    checkAuth cfg v = true ↔
      ∃ p : String, v = "Basic " ++ p ∧ base64Decode p.data = some (strBytes cfg.Auth) := by
  constructor
  · intro h
    unfold checkAuth at h
    split at h
    · exact absurd h (by simp)
    · rename_i scheme payload hs
      split at h
      · rename_i hsch
        split at h
        · exact absurd h (by simp)
        · rename_i bytes hd
          simp only [decide_eq_true_eq] at h
          subst h
          obtain ⟨hx, _⟩ := splitOnce_eq_some v.data scheme payload hs
          refine ⟨String.mk payload, ?_, hd⟩
          have hbasic : "Basic ".data = "Basic".data ++ [' '] := by decide
          have hdata : v.data = ("Basic " ++ String.mk payload).data := by
            rw [String.data_append, hbasic, List.append_assoc, hx, hsch]
            rfl
          cases v
          exact congrArg String.mk (by simpa using hdata)
      · exact absurd h (by simp)
  · intro hex
    obtain ⟨p, hp, hd⟩ := hex
    subst hp
    unfold checkAuth
    have hbasic : "Basic ".data = "Basic".data ++ [' '] := by decide
    have hdata : ("Basic " ++ p).data = "Basic".data ++ ' ' :: p.data := by
      rw [String.data_append, hbasic, List.append_assoc]
      rfl
    rw [hdata, splitOnce_append_space "Basic".data p.data (by decide)]
    simp [hd]



theorem utf8Bytes_lt (n : Nat) (hn : n < 1114112) : ∀ b ∈ utf8Bytes n, b < 256 := by
  intro b hb
  unfold utf8Bytes at hb
  split at hb
  · simp at hb
    omega
  · split at hb
    · simp at hb
      rcases hb with h | h <;> omega
    · split at hb
      · simp at hb
        rcases hb with h | h | h <;> omega
      · simp at hb
        rcases hb with h | h | h | h <;> omega

theorem strBytes_lt (s : String) : ∀ b ∈ strBytes s, b < 256 := by
  intro b hb
  simp only [strBytes, List.mem_flatMap] at hb
  obtain ⟨c, _, hc⟩ := hb
  have hval : c.toNat < 1114112 := by
    rcases c.valid with h | ⟨h1, h2⟩
    · exact lt_trans h (by norm_num)
    · exact h2
  exact utf8Bytes_lt c.toNat hval b hc

/-- C1: with a non-empty configured credential, a request whose
`Proxy-Authorization` value is absent (the empty `Get` result) or is not
`Basic`, a space, and a base64 payload decoding to exactly the credential
bytes, is rejected with 407 and the realm challenge and reaches no handler;
the value `Basic ` followed by the base64 encoding of the credential passes
the gate and the request is dispatched normally by method. -/
theorem auth_gate_c1 (cfg : config) (r : Request) (hA : cfg.Auth ≠ "") :
    ((headerGet r.headers "Proxy-Authorization" = "" ∨
        ¬ ∃ p : String, headerGet r.headers "Proxy-Authorization" = "Basic " ++ p ∧
          base64Decode p.data = some (strBytes cfg.Auth)) →
      dispatch cfg r =
        Route.reject 407 "Basic realm=\"WProxy Basic Authentication\"" "Authorization required") ∧
    (headerGet r.headers "Proxy-Authorization" = "Basic " ++ base64Encode cfg.Auth →
      dispatch cfg r = if r.method = "CONNECT" then Route.tunnel else Route.forward) := by
  constructor
  · intro hbad
    rcases hbad with hempty | hnex
    · simp [dispatch, hA, hempty]
    · have hfail : checkAuth cfg (headerGet r.headers "Proxy-Authorization") = false := by
        cases hcb : checkAuth cfg (headerGet r.headers "Proxy-Authorization") with
        | false => rfl
        | true => exact absurd ((checkAuth_eq_true_iff cfg _).mp hcb) hnex
      simp [dispatch, hA, hfail]
  · intro hgood
    have hok : checkAuth cfg (headerGet r.headers "Proxy-Authorization") = true := by
      apply (checkAuth_eq_true_iff cfg _).mpr
      refine ⟨base64Encode cfg.Auth, hgood, ?_⟩
      show base64Decode (base64EncodeBytes (strBytes cfg.Auth)) = some (strBytes cfg.Auth)
      exact base64Decode_encode _ (strBytes_lt cfg.Auth)
    have hne : headerGet r.headers "Proxy-Authorization" ≠ "" := by
      rw [hgood]
      intro hcon
      have hlen := congrArg String.length hcon
      rw [String.length_append] at hlen
      have h6 : "Basic ".length = 6 := rfl
      have h0 : "".length = 0 := rfl
      omega
    simp [dispatch, hA, hne, hok]

/-- C1 witness: credential `tt:123`, header `Basic dHQ6MTIz` is dispatched
to the HTTP forwarder. -/
theorem auth_gate_c1_witness :
    dispatch ⟨"0.0.0.0", "8888", "tt:123", false, false⟩
      ⟨"GET", "example.com", "1.2.3.4:5", [("Proxy-Authorization", ["Basic dHQ6MTIz"])]⟩ =
      Route.forward := by
  have h := (auth_gate_c1 ⟨"0.0.0.0", "8888", "tt:123", false, false⟩
    ⟨"GET", "example.com", "1.2.3.4:5", [("Proxy-Authorization", ["Basic dHQ6MTIz"])]⟩
    (by decide)).2 (by decide)
  rw [h]
  decide

end WProxy
